import Mathlib

set_option maxRecDepth 8000

/-!
Verification of the squashfs-async read path against its specification.

The definitions below are a shallow embedding of the Rust sources:
  src/data.rs           (read_file, read_file_impl, read_data_block, BlockSize, decompress)
  src/lib.rs            (SquashFs fields used by the read path, get_reader)
  src/inodes/file.rs    (FileInode, data_locations)
  src/fragments.rs      (FragmentLocation, fragment table entry lookup)
  src/directory_table.rs(Header, EntryInternal, Entry, DirectoryTable::from_reader/find)
  src/deser.rs          (bincode_deser_string_from)
  src/superblock.rs     (Compression, CompressionOptions::from_metadata, SuperBlock::from_reader)
  src/metadata.rs       (MetadataBlock::from_reader)

Machine integers are modelled as Nat (with explicit mod where wrapping matters),
byte buffers as List UInt8, fallible code as Except.  External collaborators
(the tokio reader, the async-compression decoders) are abstracted as oracle
function parameters; the f64 arithmetic used by the source for block math is
modelled bit-faithfully (IEEE 754 binary64, round to nearest, ties to even).
-/

namespace Squash

/-- Compression algorithm (src/superblock.rs, `enum Compression`, `repr(u16)` starting at 1). -/
inductive Compression where
| gzip
| lzma
| lzd
| xz
| lz4
| zstd
deriving DecidableEq, Repr

/-- BlockSize (src/data.rs): a 32-bit word; low 24 bits are the on-disk (compressed)
byte length, bit 24 set means the block is stored uncompressed. -/
structure BlockSize where
val : Nat
deriving DecidableEq, Repr

/-- Source: `(self.0 & (1 << 24)) == 0` (src/data.rs, `BlockSize::compressed`). -/
def BlockSize.compressed (b : BlockSize) : Bool :=
b.val &&& (1 <<< 24) == 0

/-- Source: `(self.0 & 0x00FFFFFF) as u64` (src/data.rs, `BlockSize::compressed_size`). -/
def BlockSize.compressedSize (b : BlockSize) : Nat :=
b.val &&& 0xFFFFFF

/-- Location of one data block (src/data.rs, `struct DataLocation`). -/
structure DataLocation where
block_start : Nat
block_size : BlockSize
deriving DecidableEq, Repr

/-- FragmentLocation (src/fragments.rs): `index == 0xFFFFFFFF` means no fragment. -/
structure FragmentLocation where
index : Nat
offset : Nat
deriving DecidableEq, Repr

/-- Source: `self.index != 0xFFFFFFFF` (src/fragments.rs, `FragmentLocation::valid`). -/
def FragmentLocation.valid (l : FragmentLocation) : Bool :=
l.index != 0xFFFFFFFF

/-- Fragment table entry (src/fragments.rs, `struct Entry`; the unused u32 is dropped). -/
structure FragmentEntry where
start : Nat
size : BlockSize
deriving DecidableEq, Repr

/-- File inode capabilities used by the read path (src/inodes/file.rs, trait `FileInode`):
`file_size`, `blocks_start`, `block_sizes`, `fragment`.  Both `BasicFile` and
`ExtendedFile` expose exactly these. -/
structure FileInode where
file_size : Nat
blocks_start : Nat
block_sizes : List BlockSize
fragment : FragmentLocation
deriving DecidableEq, Repr

/-- Source: `FileInode::data_locations` (src/inodes/file.rs): start at `blocks_start`,
yield one `DataLocation` per `BlockSize` and advance by the compressed size. -/
def dataLocationsAux (start : Nat) : List BlockSize → List DataLocation
| [] => []
| b :: rest => ⟨start, b⟩ :: dataLocationsAux (start + b.compressedSize) rest

def FileInode.dataLocations (f : FileInode) : List DataLocation :=
dataLocationsAux f.blocks_start f.block_sizes

/-- Error type (src/error.rs, `enum Error`), restricted to the variants reachable from the
embedded read path.  `rustPanic` is not a variant of the source enum: it models a Rust
panic (a failed `assert!`, an out-of-range slice index, or `unwrap` on `None`). -/
inductive Error where
| invalidBufferSize
| invalidOffset
| fileNotFound (name : Option (List UInt8))
| readFailure
| decompressFailure
| unsupportedCompression (c : Compression)
| fragmentsInvalidLocation
| metadataInvalidHeader
| metadataInvalidDataLength
| cacheWrapped (inner : Error)
| invalidSuperblock
| rustPanic
deriving DecidableEq, Repr

/-- Value of `libc::O_DIRECT` on Linux (x86-64 / aarch64 glibc), the flag tested and
forced by `read_file` (src/data.rs lines 93, 97, 108). -/
def O_DIRECT : Nat := 0x4000

/-!
Model of the f64 arithmetic used by `read_file_impl` (src/data.rs lines 167-170) and
related helpers: Rust computes
  `(offset as f64 / block_size as f64).floor() as usize` and
  `((block_offset + size) as f64 / block_size as f64).ceil() as usize`.
We model IEEE 754 binary64 exactly for these operations on nonnegative integer
inputs: a 53-bit significand, round to nearest with ties to even.  Exponent
range is irrelevant here (all magnitudes are far inside the normal range).
-/

/-- Fuel-bounded base-2 logarithm: `log2fuel fuel n = Nat.log2 n` whenever `n < 2 ^ fuel`.
The fuel makes the definition structurally recursive. -/
def log2fuel : Nat → Nat → Nat
| 0, _ => 0
| fuel + 1, n => if n < 2 then 0 else log2fuel fuel (n / 2) + 1

/-- Bit-position of the highest set bit (⌊log2 n⌋); exact for `n < 2 ^ 128`,
which covers every value occurring in the embedded arithmetic. -/
def natBitLog (n : Nat) : Nat := log2fuel 128 n

/-- Round `m / 2 ^ s` to the nearest integer, ties to even. -/
def roundEven (m s : Nat) : Nat :=
if s = 0 then m
else
  let q := m / 2 ^ s
  let r := m % 2 ^ s
  let half := 2 ^ (s - 1)
  if r < half then q
  else if half < r then q + 1
  else if q % 2 = 0 then q else q + 1

/-- Round a nonnegative integer to the nearest f64 (`n as f64` in Rust).
Integers below `2 ^ 53` are exactly representable; larger ones are rounded to
53 significant bits, ties to even. -/
def toF64 (n : Nat) : Nat :=
if n < 2 ^ 53 then n
else
  let s := natBitLog n - 52
  roundEven n s * 2 ^ s

/-- Round the rational `n / d` to the nearest integer, ties to even (`d ≠ 0`). -/
def divRoundEven (n d : Nat) : Nat :=
let q := n / d
let r := n % d
if 2 * r < d then q
else if d < 2 * r then q + 1
else if q % 2 = 0 then q else q + 1

/-- Correctly rounded f64 division of exactly representable naturals `a / b` (`b ≠ 0`),
returned as significand and binary exponent: the value is `m * 2 ^ e`.
The significand is the quotient scaled into `[2 ^ 52, 2 ^ 53]` and rounded to
nearest, ties to even. -/
def fdivRepr (a b : Nat) : Nat × Int :=
if a = 0 then (0, 0)
else
  let e0 : Int := (natBitLog a : Int) - (natBitLog b : Int) - 52
  let n0 := a * 2 ^ Int.toNat (-e0)
  let d0 := b * 2 ^ Int.toNat e0
  if n0 / d0 < 2 ^ 52 then
    let e1 := e0 - 1
    (divRoundEven (a * 2 ^ Int.toNat (-e1)) (b * 2 ^ Int.toNat e1), e1)
  else (divRoundEven n0 d0, e0)

/-- Model of Rust `(a as f64 / b as f64).floor() as usize` for `a b : Nat` that are
already exact f64 values.  Division by zero follows IEEE + Rust saturating casts:
`0.0 / 0.0` is NaN (casts to 0), `x / 0.0` is infinity (saturates to `usize::MAX`). -/
def fdivFloorNat (a b : Nat) : Nat :=
if b = 0 then (if a = 0 then 0 else 2 ^ 64 - 1)
else
  let p := fdivRepr a b
  if 0 ≤ p.2 then p.1 * 2 ^ Int.toNat p.2
  else p.1 / 2 ^ Int.toNat (-p.2)

/-- Model of Rust `(a as f64 / b as f64).ceil() as usize` under the same conventions. -/
def fdivCeilNat (a b : Nat) : Nat :=
if b = 0 then (if a = 0 then 0 else 2 ^ 64 - 1)
else
  let p := fdivRepr a b
  if 0 ≤ p.2 then p.1 * 2 ^ Int.toNat p.2
  else (p.1 + 2 ^ Int.toNat (-p.2) - 1) / 2 ^ Int.toNat (-p.2)

/-- The source expression `(x as f64 / y as f64).floor() as usize` (src/data.rs line 167). -/
def floatFloorDiv (x y : Nat) : Nat := fdivFloorNat (toF64 x) (toF64 y)

/-- The source expression `(x as f64 / y as f64).ceil() as usize` (src/data.rs lines 169-170). -/
def floatCeilDiv (x y : Nat) : Nat := fdivCeilNat (toF64 x) (toF64 y)

/-!
Read-path state.  The two caches (fuser_async IndexCache / LRUCache) are modelled as
association lists; `reads` records the absolute image offsets at which block data was
fetched and decoded (seeks are not reads and are not recorded); `readerFlags` records
the flag argument of each `get_reader` call.
-/

/-- Effects accumulated by a read: cache contents and the observable I/O trace. -/
structure Eff where
cache : List (Nat × List UInt8)
smallCache : List (Nat × List UInt8)
reads : List Nat
readerFlags : List Nat
deriving DecidableEq, Repr

/-- Decompression oracle: given the absolute start offset of a block, its BlockSize
word, and the algorithm, yields the decompressed bytes (or an I/O / decoder error).
This abstracts the reader contents together with the external decoder of
`decompress` (src/data.rs lines 17-36); it is keyed by the absolute offset because
the reader is always positioned at `start - reader_offset` of a reader whose byte
`p` is image byte `reader_offset + p`. -/
def Decomp : Type := Nat → BlockSize → Compression → Except Unit (List UInt8)

/-- Configuration and immutable tables of `SquashFs` used by `read_file`
(src/lib.rs fields `superblock.block_size`, `inode_table.files`, `fragments_table`,
`direct_limit`, `cache`, `small_files_cache`). -/
structure SquashModel where
block_size : Nat
files : List (Nat × FileInode)
fragments : List FragmentEntry
direct_limit : Nat
cacheEnabled : Bool
smallCacheEnabled : Bool

/-- Source: `FragmentsTable::entry` (src/fragments.rs lines 43-51): invalid location or
out-of-range index yields `FragmentsError::InvalidLocation`. -/
def fragmentsEntry (entries : List FragmentEntry) (location : FragmentLocation) :
    Except Error FragmentEntry :=
if location.valid = false then .error .fragmentsInvalidLocation
else
  match entries.get? location.index with
  | some e => .ok e
  | none => .error .fragmentsInvalidLocation

/-- Source: `read_data_block` (src/data.rs lines 244-299).
Steps, in source order:
1. `r.seek(start - reader_offset)`: positions the reader, performs no read
   (the subtraction is u64; the embedded callers always have `reader_offset ≤ start`).
2. `if b.compressed_size() == 0 { return Ok(()) }`: sparse block, output left as is.
3. Cache lookup by absolute `start`; on hit with a length mismatch fail with
   `InvalidBufferSize`, otherwise copy the cached bytes into the buffer.
4. `decompress(...)` into a cursor over the buffer; writing more than the buffer
   holds makes `tokio::io::copy` fail (modelled as a decompression failure), and
   a shorter output leaves the zeroed tail in place.
5. Publish the buffer to the cache under `start` (`insert_lock` get-or-insert). -/
def readDataBlock (decomp : Decomp) (reader_offset start : Nat) (b : BlockSize)
    (buf : List UInt8) (cacheEnabled : Bool) (compression : Compression) (eff : Eff) :
    Except Error (List UInt8) × Eff :=
if b.compressedSize = 0 then (.ok buf, eff)
else
  match (if cacheEnabled then eff.cache.lookup start else none) with
  | some block =>
    if block.length ≠ buf.length then (.error .invalidBufferSize, eff)
    else (.ok block, eff)
  | none =>
    match decomp start b compression with
    | .error _ => (.error .decompressFailure, { eff with reads := eff.reads ++ [start] })
    | .ok out =>
      let eff1 : Eff := { eff with reads := eff.reads ++ [start] }
      if buf.length < out.length then (.error .decompressFailure, eff1)
      else
        let newBuf := out ++ buf.drop out.length
        let eff2 : Eff :=
          if cacheEnabled then
            { eff1 with
              cache :=
                if (eff1.cache.lookup start).isSome then eff1.cache
                else (start, newBuf) :: eff1.cache }
          else eff1
        (.ok newBuf, eff2)

/-- The per-block loop of `read_file_impl` (src/data.rs lines 192-203):
`data_locations.iter().zip(buf_parts.iter_mut())`, reading each location into its slice. -/
def readBlocksLoop (decomp : Decomp) (cacheEnabled : Bool) (compression : Compression)
    (reader_offset : Nat) :
    List (DataLocation × List UInt8) → Eff → Except Error (List (List UInt8)) × Eff
| [], eff => (.ok [], eff)
| (l, part) :: rest, eff =>
  match readDataBlock decomp reader_offset l.block_start l.block_size part cacheEnabled
      compression eff with
  | (.error e, eff1) => (.error e, eff1)
  | (.ok newPart, eff1) =>
    match readBlocksLoop decomp cacheEnabled compression reader_offset rest eff1 with
    | (.error e, eff2) => (.error e, eff2)
    | (.ok parts, eff2) => (.ok (newPart :: parts), eff2)

/-- Final assembly of `read_file_impl` (src/data.rs lines 224-233): concatenate the
slices, discard the leading `block_offset` bytes (`split_to`, which panics when the
amount exceeds the length), truncate to `size` (`split_off(size)` keeps the first
`size` bytes and leaves the buffer unchanged when `size` exceeds the length), and
check the final length. -/
def assembleTail (block_offset size : Nat) (allParts : List (List UInt8)) :
    Except Error (List UInt8) :=
let buf := allParts.flatten
if buf.length < block_offset then .error .rustPanic
else
  let buf1 := (buf.drop block_offset).take size
  if buf1.length ≠ size then .error .invalidBufferSize else .ok buf1

/-- Source: `read_file_impl` (src/data.rs lines 156-242).
Block arithmetic is the f64 arithmetic of the source (`floatFloorDiv` / `floatCeilDiv`);
`offset % block_size` is usize remainder (the embedded model uses Nat `%`; Rust would
panic on `block_size = 0`, where Nat gives `offset`, a difference only reachable with
a corrupt superblock).  The `n_blocks` zeroed slices of `block_size` bytes model
`BytesMut::zeroed(block_size * n_blocks)` split into equal parts.  When fewer data
locations than `n_blocks` are available, the source asserts exactly one is missing
(`assert!`, modelled as `rustPanic`) and reads it from the fragment table into the
last slice, then discards the first `fragment.offset` bytes of that slice. -/
def readFileImpl (m : SquashModel) (decomp : Decomp) (file : FileInode)
    (reader_offset : Nat) (offset size : Nat) (compression : Compression) (eff : Eff) :
    Except Error (List UInt8) × Eff :=
let first_block := floatFloorDiv offset m.block_size
let block_offset := offset % m.block_size
let n_blocks := floatCeilDiv (block_offset + size) m.block_size
let parts : List (List UInt8) := List.replicate n_blocks (List.replicate m.block_size 0)
let locations := (file.dataLocations.drop first_block).take n_blocks
match readBlocksLoop decomp m.cacheEnabled compression reader_offset
    (locations.zip parts) eff with
| (.error e, eff1) => (.error e, eff1)
| (.ok readParts, eff1) =>
  if locations.length = n_blocks then (assembleTail block_offset size readParts, eff1)
  else
    if n_blocks ≠ locations.length + 1 then (.error .rustPanic, eff1)
    else
      match fragmentsEntry m.fragments file.fragment with
      | .error e => (.error e, eff1)
      | .ok entry =>
        let lastPart := List.replicate m.block_size (0 : UInt8)
        match readDataBlock decomp reader_offset entry.start entry.size lastPart
            m.cacheEnabled compression eff1 with
        | (.error e, eff2) => (.error e, eff2)
        | (.ok fragPart, eff2) =>
          if fragPart.length < file.fragment.offset then (.error .rustPanic, eff2)
          else
            (assembleTail block_offset size
              (readParts ++ [fragPart.drop file.fragment.offset]), eff2)

/-- Which branch of `read_file` produced the returned bytes (model instrumentation,
not source data): the early empty return, the whole-small-file cache branch, or the
regular block path (`read_file_impl` on a pool reader). -/
inductive Route where
| earlyEmpty
| smallFile
| regular
deriving DecidableEq, Repr

/-- Successful result of `read_file`: the returned bytes plus the route taken. -/
structure ReadOk where
data : List UInt8
route : Route
deriving DecidableEq, Repr

/-- Source: `read_file` (src/data.rs lines 61-154).
1. Resolve the inode in `inode_table.files`, else `FileNotFound(None)`.
2. `size = min(size, file_size - offset)` via `checked_sub`: `offset > file_size`
   is `InvalidOffset`; a zero clamped size returns an empty buffer immediately.
3. `file_size < block_size`: force `O_DIRECT` and use the regular path.
4. Else, when `file_size < direct_limit`, the file has no tail fragment, the caller
   passed `O_DIRECT`, and the small-files cache is configured: serve through that
   cache.  On a miss the producer takes one reader with `flags | O_DIRECT`, performs
   one raw read of the whole compressed span at the first block start, decodes it
   with `read_file_impl` over the in-memory bytes (`reader_offset` = first block
   start, request `(0, file_size)`), and installs the decoded file; a producer error
   reaches the caller wrapped in a cache error (`cacheWrapped`).  The requested
   slice `[offset, offset + size)` of the cached bytes is returned (out-of-range
   indexing would panic).
5. Otherwise the regular path: one reader with the flags of the caller, then
   `read_file_impl` at `reader_offset = 0`. -/
def readFile (m : SquashModel) (decomp : Decomp) (inode offset sizeReq flags : Nat)
    (compression : Compression) (eff : Eff) : Except Error ReadOk × Eff :=
match m.files.lookup inode with
| none => (.error (.fileNotFound none), eff)
| some file =>
  if file.file_size < offset then (.error .invalidOffset, eff)
  else
    let size := min sizeReq (file.file_size - offset)
    if size = 0 then (.ok ⟨[], .earlyEmpty⟩, eff)
    else
      if file.file_size < m.block_size then
        let dflags := flags ||| O_DIRECT
        let eff1 : Eff := { eff with readerFlags := eff.readerFlags ++ [dflags] }
        match readFileImpl m decomp file 0 offset size compression eff1 with
        | (.error e, eff2) => (.error e, eff2)
        | (.ok out, eff2) => (.ok ⟨out, .regular⟩, eff2)
      else
        if file.file_size < m.direct_limit ∧ file.fragment.valid = false ∧
            flags &&& O_DIRECT ≠ 0 ∧ m.smallCacheEnabled = true then
          match file.dataLocations with
          | [] => (.error .rustPanic, eff)
          | first :: _ =>
            let dflags := flags ||| O_DIRECT
            match eff.smallCache.lookup inode with
            | some cached =>
              if cached.length < offset + size then (.error .rustPanic, eff)
              else (.ok ⟨(cached.drop offset).take size, .smallFile⟩, eff)
            | none =>
              let eff1 : Eff :=
                { eff with
                  readerFlags := eff.readerFlags ++ [dflags],
                  reads := eff.reads ++ [first.block_start] }
              match readFileImpl m decomp file first.block_start 0 file.file_size
                  compression eff1 with
              | (.error e, eff2) => (.error (.cacheWrapped e), eff2)
              | (.ok contents, eff2) =>
                let eff3 : Eff :=
                  { eff2 with smallCache := (inode, contents) :: eff2.smallCache }
                if contents.length < offset + size then (.error .rustPanic, eff3)
                else (.ok ⟨(contents.drop offset).take size, .smallFile⟩, eff3)
        else
          let eff1 : Eff := { eff with readerFlags := eff.readerFlags ++ [flags] }
          match readFileImpl m decomp file 0 offset size compression eff1 with
          | (.error e, eff2) => (.error e, eff2)
          | (.ok out, eff2) => (.ok ⟨out, .regular⟩, eff2)

/-!
Directory table model (src/directory_table.rs), with the byte-level decoding of
src/deser.rs: bincode with fixed-width little-endian integers that rejects both
short input and trailing bytes within a record.  Rust `String`s are modelled as
their UTF-8 byte lists (`String` equality is equality of those bytes).
-/

/-- Little-endian u16 from two bytes. -/
def leU16 (b0 b1 : UInt8) : Nat := b0.toNat + 256 * b1.toNat

/-- Little-endian u32 from four bytes. -/
def leU32 (b0 b1 b2 b3 : UInt8) : Nat :=
b0.toNat + 256 * b1.toNat + 65536 * b2.toNat + 16777216 * b3.toNat

/-- Interpretation of a u16 bit pattern as the signed i16 it encodes. -/
def i16ofU16 (v : Nat) : Int :=
if v < 2 ^ 15 then (v : Int) else (v : Int) - 2 ^ 16

/-- Inode type tags (src/inodes/mod.rs, `enum InodeType`, `repr(u16)` starting at 1). -/
inductive InodeType where
| basicDirectory
| basicFile
| basicSymlink
| basicBlockDevice
| basicCharDevice
| basicFifo
| basicSocket
| extendedDirectory
| extendedFile
| extendedSymlink
| extendedBlockDevice
| extendedCharDevice
| extendedFifo
| extendedSocket
deriving DecidableEq, Repr

/-- Decoding of the `InodeType` tag: serde rejects any value outside 1..=14. -/
def InodeType.ofU16 : Nat → Option InodeType
| 1 => some .basicDirectory
| 2 => some .basicFile
| 3 => some .basicSymlink
| 4 => some .basicBlockDevice
| 5 => some .basicCharDevice
| 6 => some .basicFifo
| 7 => some .basicSocket
| 8 => some .extendedDirectory
| 9 => some .extendedFile
| 10 => some .extendedSymlink
| 11 => some .extendedBlockDevice
| 12 => some .extendedCharDevice
| 13 => some .extendedFifo
| 14 => some .extendedSocket
| _ => none

/-- Whether a byte is a UTF-8 continuation byte (`0b10xxxxxx`). -/
def utf8Cont (b : UInt8) : Bool := 0x80 ≤ b.toNat && b.toNat < 0xC0

/-- UTF-8 validity of a byte list: the check performed by `std::str::from_utf8`
inside `bincode_deser_string_from` (src/deser.rs lines 24-33). -/
def validUtf8 : List UInt8 → Bool
| [] => true
| b :: rest =>
  if b.toNat < 0x80 then validUtf8 rest
  else if b.toNat < 0xC2 then false
  else if b.toNat < 0xE0 then
    match rest with
    | b1 :: rest2 => utf8Cont b1 && validUtf8 rest2
    | [] => false
  else if b.toNat < 0xF0 then
    match rest with
    | b1 :: b2 :: rest2 =>
      (if b.toNat = 0xE0 then 0xA0 ≤ b1.toNat && b1.toNat < 0xC0
       else if b.toNat = 0xED then 0x80 ≤ b1.toNat && b1.toNat < 0xA0
       else utf8Cont b1) && utf8Cont b2 && validUtf8 rest2
    | _ => false
  else if b.toNat < 0xF5 then
    match rest with
    | b1 :: b2 :: b3 :: rest2 =>
      (if b.toNat = 0xF0 then 0x90 ≤ b1.toNat && b1.toNat < 0xC0
       else if b.toNat = 0xF4 then 0x80 ≤ b1.toNat && b1.toNat < 0x90
       else utf8Cont b1) && utf8Cont b2 && utf8Cont b3 && validUtf8 rest2
    | _ => false
  else false

/-- Source: `bincode_deser_string_from(r, size)` (src/deser.rs lines 24-33): read exactly
`size` bytes (error on short input), check UTF-8 validity, and keep ALL `size` bytes
as the string. -/
def bincodeDeserStringFrom (size : Nat) (bytes : List UInt8) :
    Except Unit (List UInt8 × List UInt8) :=
let buf := bytes.take size
if buf.length < size then .error ()
else if validUtf8 buf then .ok (buf, bytes.drop size) else .error ()

/-- Directory table header (src/directory_table.rs, `struct Header`, 12 bytes). -/
structure DirHeader where
entries : Nat
inode_table_offset : Nat
inode_number_base : Nat
deriving DecidableEq, Repr

/-- Directory table errors (src/error.rs, `enum DirectoryTableError`). -/
inductive DirTabError where
| invalidHeader
| invalidEntry
deriving DecidableEq, Repr

/-- On-disk directory entry before resolution (src/directory_table.rs,
`struct EntryInternal`, 8 fixed bytes followed by the name field). -/
structure EntryInternal where
inode_metadata_offset : Nat
inode_offset : Int
type : InodeType
name_size : Nat
name : List UInt8
deriving DecidableEq, Repr

/-- Source: `EntryInternal::from_reader` (src/directory_table.rs lines 72-82):
8 bytes of fixed fields (u16 meta-offset, i16 inode-offset, u16 type tag,
u16 name_size), then `name_size + 1` bytes of name via `bincode_deser_string_from`.
Any failure (short input, bad tag, invalid UTF-8) is `InvalidEntry`. -/
def entryInternalFromReader (bytes : List UInt8) :
    Except DirTabError (EntryInternal × List UInt8) :=
match bytes with
| b0 :: b1 :: b2 :: b3 :: b4 :: b5 :: b6 :: b7 :: rest =>
  match InodeType.ofU16 (leU16 b4 b5) with
  | none => .error .invalidEntry
  | some ty =>
    let name_size := leU16 b6 b7
    match bincodeDeserStringFrom (name_size + 1) rest with
    | .error _ => .error .invalidEntry
    | .ok (name, rest2) =>
      .ok (⟨leU16 b0 b1, i16ofU16 (leU16 b2 b3), ty, name_size, name⟩, rest2)
| _ => .error .invalidEntry

/-- Resolved directory entry (src/directory_table.rs, `struct Entry`). -/
structure DirEntry where
inode_metadata_offset : Nat
inode : Nat
type : InodeType
name : List UInt8
deriving DecidableEq, Repr

/-- Source: `Entry::from` (src/directory_table.rs lines 62-71):
`inode = (inode_number_base as i32 + inode_offset as i32) as u32`, i.e. a signed
add with two-complement wrap-around (release semantics), and
`inode_metadata_offset = header.inode_table_offset + entry offset` (u32 add). -/
def DirEntry.fromInternal (h : DirHeader) (e : EntryInternal) : DirEntry :=
{ inode_metadata_offset := (h.inode_table_offset + e.inode_metadata_offset) % 2 ^ 32
  inode := (((h.inode_number_base : Int) + e.inode_offset) % 2 ^ 32).toNat
  type := e.type
  name := e.name }

/-- Parse `n` consecutive directory entries under one header
(the `for _ in 0..header.entries + 1` loop, src/directory_table.rs lines 122-125). -/
def parseEntries (h : DirHeader) : Nat → List UInt8 →
    Except DirTabError (List DirEntry × List UInt8)
| 0, bytes => .ok ([], bytes)
| n + 1, bytes =>
  match entryInternalFromReader bytes with
  | .error e => .error e
  | .ok (e, rest) =>
    match parseEntries h n rest with
    | .error e2 => .error e2
    | .ok (es, rest2) => .ok (DirEntry.fromInternal h e :: es, rest2)

/-- The header loop of `DirectoryTable::from_reader` (src/directory_table.rs lines
105-126): read a 12-byte header (fewer than 12 remaining bytes is the
`UnexpectedEof` break), then `entries + 1` entries, and repeat.  The fuel makes
the loop structurally recursive; each iteration consumes at least 12 bytes, so with
the wrapper fuel `bytes.length + 1` the fuel-exhaustion branch is unreachable. -/
def dirTableLoop : Nat → List UInt8 → Except DirTabError (List DirEntry)
| 0, _ => .error .invalidHeader
| fuel + 1, bytes =>
  match bytes with
  | b0 :: b1 :: b2 :: b3 :: b4 :: b5 :: b6 :: b7 :: b8 :: b9 :: b10 :: b11 :: rest =>
    let h : DirHeader := ⟨leU32 b0 b1 b2 b3, leU32 b4 b5 b6 b7, leU32 b8 b9 b10 b11⟩
    match parseEntries h (h.entries + 1) rest with
    | .error e => .error e
    | .ok (es, rest2) =>
      match dirTableLoop fuel rest2 with
      | .error e => .error e
      | .ok more => .ok (es ++ more)
  | _ => .ok []

/-- Table for one directory (src/directory_table.rs, `struct DirectoryTable`):
the entry list plus the `hash(name) → Vec<index>` side index.  The `HashMap` is
modelled as a function from hash values to index lists. -/
structure DirectoryTable where
entries : List DirEntry
index : Nat → List Nat

/-- The index built by `DirectoryTable::from_reader` (src/directory_table.rs lines
128-133): `entries.iter().enumerate().map(|(i, e)| (index_hash(&e.name), i))
.into_group_map()` — for each hash value, the list of ALL indices of entries whose
name has that hash, in increasing index order.  The hash function (`DefaultHasher`)
is abstracted as a parameter; the code only ever compares hashes computed by the
one function. -/
def buildIndex (hash : List UInt8 → Nat) (entries : List DirEntry) : Nat → List Nat :=
fun key => (entries.enum.filter (fun p => hash p.2.name == key)).map (fun p => p.1)

/-- Source: `DirectoryTable::from_reader` (src/directory_table.rs lines 105-135). -/
def dirTableFromReader (hash : List UInt8 → Nat) (bytes : List UInt8) :
    Except DirTabError DirectoryTable :=
match dirTableLoop (bytes.length + 1) bytes with
| .error e => .error e
| .ok entries => .ok ⟨entries, buildIndex hash entries⟩

/-- Source: `DirectoryTable::find` (src/directory_table.rs lines 96-104): hash the
name, fetch the candidate index list, map each index to its entry, and return the
first whose name compares equal.  The source indexes `self.entries[*i]` directly
(a panic if out of range); under the `from_reader` index every candidate is in
range, which the embedding reflects by skipping impossible out-of-range indices. -/
def DirectoryTable.find (hash : List UInt8 → Nat) (t : DirectoryTable)
    (name : List UInt8) : Option DirEntry :=
((t.index (hash name)).filterMap (fun i => t.entries.get? i)).find?
  (fun e => e.name == name)

/-!
Superblock compression-options model (src/superblock.rs, src/metadata.rs).
-/

/-- Decoded metadata block (src/metadata.rs, `struct MetadataBlock`): the size field
of the 16-bit on-disk header (low 15 bits, the on-disk byte length of the body) and
the decompressed payload. -/
structure MetadataBlockM where
compressed_size : Nat
data : List UInt8
deriving DecidableEq, Repr

/-- Decompression oracle for metadata blocks: algorithm and the raw (compressed)
body bytes to the decompressed payload, abstracting the external decoders. -/
def MdDecomp : Type := Compression → List UInt8 → Except Unit (List UInt8)

/-- Source: `MetadataBlock::from_reader` (src/metadata.rs lines 17-44): read the
16-bit LE header; low 15 bits are the body size, the high bit set means the body is
stored uncompressed (copied verbatim); decompress otherwise; reject a decompressed
payload larger than 8192 bytes.  `tokio::io::copy` over `take(n)` copies at most
`n` bytes and does not fail on shorter input. -/
def metadataBlockFromReader (mdDecomp : MdDecomp) (compression : Compression)
    (bytes : List UInt8) : Except Error (MetadataBlockM × List UInt8) :=
match bytes with
| b0 :: b1 :: rest =>
  let header := leU16 b0 b1
  let csize := header &&& 0x7FFF
  let compressed := header &&& 0x8000 == 0
  let body := rest.take csize
  match (if compressed then mdDecomp compression body else .ok body) with
  | .error _ => .error .decompressFailure
  | .ok data =>
    if 8192 < data.length then .error .metadataInvalidDataLength
    else .ok (⟨csize, data⟩, rest.drop csize)
| _ => .error .metadataInvalidHeader

/-- Parsed compression options (src/superblock.rs, `enum CompressionOptions`). -/
inductive CompressionOptions where
| zstd
| gzip
| xz
deriving DecidableEq, Repr

/-- Source: `CompressionOptions::from_metadata` (src/superblock.rs lines 46-69):
the check is on `block.compressed_size`, the on-disk size field of the metadata
block header: 4 for Zstd, 8 for Gzip, 8 for Xz, `InvalidBufferSize` otherwise;
every other algorithm is `UnsupportedCompression`. -/
def CompressionOptions.fromMetadata (compression : Compression)
    (block : MetadataBlockM) : Except Error CompressionOptions :=
match compression with
| .zstd => if block.compressed_size ≠ 4 then .error .invalidBufferSize else .ok .zstd
| .gzip => if block.compressed_size ≠ 8 then .error .invalidBufferSize else .ok .gzip
| .xz => if block.compressed_size ≠ 8 then .error .invalidBufferSize else .ok .xz
| c => .error (.unsupportedCompression c)

/-- The COMPRESSOR_OPTIONS superblock flag bit (src/superblock.rs line 35). -/
def COMPRESSOR_OPTIONS : Nat := 0x0400

/-- Superblock fields involved in compressor-options handling
(src/superblock.rs, `struct SuperBlock`; `flags` is the raw u16 bit set). -/
structure SuperBlockM where
compression : Compression
flags : Nat
compression_options : Option CompressionOptions
deriving DecidableEq, Repr

/-- The compressor-options step of `SuperBlock::from_reader` (src/superblock.rs lines
112-121), applied to the byte stream positioned just after the 96-byte superblock:
when the flag is set, consume exactly one metadata block and validate it with
`CompressionOptions::from_metadata`; otherwise consume nothing. -/
def superBlockReadOptions (mdDecomp : MdDecomp) (sb : SuperBlockM)
    (bytes : List UInt8) : Except Error (SuperBlockM × List UInt8) :=
if sb.flags &&& COMPRESSOR_OPTIONS ≠ 0 then
  match metadataBlockFromReader mdDecomp sb.compression bytes with
  | .error e => .error e
  | .ok (block, rest) =>
    match CompressionOptions.fromMetadata sb.compression block with
    | .error e => .error e
    | .ok opts => .ok ({ sb with compression_options := some opts }, rest)
else .ok (sb, bytes)

/-!
Concurrency model for two concurrent `read_data_block` calls on the same block
(src/data.rs lines 268-298).  Each call is a task whose suspension points are the
await points of the source: the cache lookup, the decompression, and the
single-flight cache insert.  A schedule is the list of which task runs its next
step; steps of one task between suspension points are atomic.
-/

/-- Program counter of one `read_data_block` task at its suspension points. -/
inductive TaskPC where
| atGet
| missed
| decompressed
| finished
deriving DecidableEq, Repr

/-- State of one task: where it is, and how many times it has run the decompressor. -/
structure TaskState where
pc : TaskPC
decompCount : Nat
deriving DecidableEq, Repr

/-- Shared state of two concurrent identical `read_data_block(.., start = k, ..)`
calls: the decoded-block cache plus both task states. -/
structure ConcState where
cache : List (Nat × List UInt8)
t0 : TaskState
t1 : TaskState
deriving DecidableEq, Repr

/-- One step of one task, for block key `k` whose decoded contents are `v`
(both tasks read the same block, so both produce `v`):
* at `atGet`: `cache.get(start)` — a hit finishes the task without decompressing
  (src/data.rs lines 269-277), a miss proceeds;
* at `missed`: run `decompress` into the local buffer — this happens OUTSIDE any
  cache lock (src/data.rs lines 278-288);
* at `decompressed`: `cache.insert_lock(start, ..)` with an immediate producer —
  the single-flight get-or-insert (src/data.rs lines 289-297). -/
def taskStep (k : Nat) (v : List UInt8) (cache : List (Nat × List UInt8))
    (t : TaskState) : List (Nat × List UInt8) × TaskState :=
match t.pc with
| .atGet =>
  match cache.lookup k with
  | some _ => (cache, { t with pc := .finished })
  | none => (cache, { t with pc := .missed })
| .missed => (cache, { pc := .decompressed, decompCount := t.decompCount + 1 })
| .decompressed =>
  ((if (cache.lookup k).isSome then cache else (k, v) :: cache),
   { t with pc := .finished })
| .finished => (cache, t)

/-- Run a schedule: `false` steps task 0, `true` steps task 1. -/
def runSchedule (k : Nat) (v : List UInt8) : List Bool → ConcState → ConcState
| [], st => st
| b :: rest, st =>
  if b then
    let p := taskStep k v st.cache st.t1
    runSchedule k v rest { st with cache := p.1, t1 := p.2 }
  else
    let p := taskStep k v st.cache st.t0
    runSchedule k v rest { st with cache := p.1, t0 := p.2 }

/-- Total number of decompressor invocations across both tasks. -/
def ConcState.decompTotal (st : ConcState) : Nat :=
st.t0.decompCount + st.t1.decompCount

/-- Initial state: empty cache, both tasks about to call `cache.get`. -/
def concInit : ConcState := ⟨[], ⟨.atGet, 0⟩, ⟨.atGet, 0⟩⟩

/-- Invariant of one task: no decompression before the miss was observed, and at
most one decompression ever. -/
def TaskState.inv (t : TaskState) : Prop :=
((t.pc = .atGet ∨ t.pc = .missed) → t.decompCount = 0) ∧ t.decompCount ≤ 1

/-!
Concrete instances used by witnesses and counterexamples: a 4-byte-block image with
one two-block file at inode 7 and a decompression oracle that yields 4 bytes per
block.
-/

/-- An uncompressed `BlockSize` word with on-disk length 4. -/
def bsU : BlockSize := ⟨(1 <<< 24) ||| 4⟩

/-- No-fragment location (`index == 0xFFFFFFFF`). -/
def fragNone : FragmentLocation := ⟨0xFFFFFFFF, 0⟩

/-- A file of 8 bytes stored as two uncompressed 4-byte blocks starting at offset 0. -/
def file8 : FileInode := ⟨8, 0, [bsU, bsU], fragNone⟩

/-- Example image: block size 4, the one file above at inode 7, both caches enabled,
small-file limit 100. -/
def mEx : SquashModel := ⟨4, [(7, file8)], [], 100, true, true⟩

/-- Example decompression oracle: every block decodes to `[1, 2, 3, 4]`. -/
def dEx : Decomp := fun _ _ _ => .ok [1, 2, 3, 4]

/-- Empty starting effects: both caches empty, no I/O performed. -/
def eff0 : Eff := ⟨[], [], [], []⟩

/-- A concrete hash function standing in for `DefaultHasher` in the witness and
counterexample instances (the directory-table theorems hold for every hash). -/
def hashSum (l : List UInt8) : Nat := l.foldl (fun a b => a + b.toNat) 0

/-- Directory-table bytes: one header (`entries = 1`, so two entries,
`inode_number_base = 1`) followed by two entries that BOTH carry the one-byte name
`a` (byte 97) with inode offsets 0 and 1, so inodes 1 and 2. -/
def c6bytes : List UInt8 :=
[1, 0, 0, 0, 0, 0, 0, 0, 1, 0, 0, 0] ++
  [0, 0, 0, 0, 2, 0, 0, 0, 97] ++ [0, 0, 1, 0, 2, 0, 0, 0, 97]

/-- The directory table parsed from `c6bytes` (the parse succeeds; the fallback arm
is unreachable and only makes the definition total). -/
def c6table : DirectoryTable :=
match dirTableFromReader hashSum c6bytes with
| .ok t => t
| .error _ => ⟨[], fun _ => []⟩

/-- Directory-entry bytes with `name_size = 1` whose name field holds the two bytes
`ab`: fixed fields (meta-offset 0, inode-offset 0, type 2 = BasicFile, name_size 1)
then bytes 97, 98. -/
def c8bytes : List UInt8 := [0, 0, 0, 0, 2, 0, 1, 0, 97, 98]

/-- The name produced by the source parser on `c8bytes` (fallback arm unreachable). -/
def c8parsedName : List UInt8 :=
match entryInternalFromReader c8bytes with
| .ok (e, _) => e.name
| .error _ => []

/-- Modelled from the spec: "strings are length-prefixed with a one-byte terminator
convention inherited from the on-disk format (allocated length = `name_size + 1`;
only the first `name_size` bytes are user-visible)" — per the spec, the user-visible
name of a directory entry record is only the FIRST `name_size` bytes of the
`name_size + 1`-byte name field that follows the 8 fixed bytes.  This definition
follows the words of the spec; it is compared against the source function
`entryInternalFromReader`. -/
def specVisibleName (bytes : List UInt8) : List UInt8 :=
match bytes with
| _ :: _ :: _ :: _ :: _ :: _ :: b6 :: b7 :: rest => rest.take (leU16 b6 b7)
| _ => []

/-- Example metadata decompression oracle for superblock options: identity on the
body bytes. -/
def mdDex : MdDecomp := fun _ b => .ok b

/-- A superblock with the compressor-options flag set and Zstd compression. -/
def sbFlagged : SuperBlockM := ⟨.zstd, 0x0400, none⟩

/-- A superblock with the compressor-options flag clear. -/
def sbPlain : SuperBlockM := ⟨.gzip, 0x0040, none⟩

/-- Bytes of one uncompressed metadata block of body size 4
(header `0x8004` little-endian, then four body bytes). -/
def optionsBlockBytes : List UInt8 := [0x04, 0x80, 9, 9, 9, 9]

/-- Effects holding a decoded-block cache entry of length 2 at key 100 (used to
exhibit the strict length check on cache hits). -/
def effHit : Eff := ⟨[(100, [5, 5])], [], [], []⟩

/-!
Theorems.
-/

/-- C3: a data block whose `BlockSize` has zero compressed size makes
`read_data_block` return immediately: the (pre-zeroed) output buffer of the caller is
returned untouched, so the block contributes `block_size` bytes of `0x00`, no block
data is read from the reader, and no entry is inserted into the decoded-block cache
(the whole effect state is unchanged). -/
theorem c3_zero_block (decomp : Decomp) (ro start : Nat) (b : BlockSize)
    (buf : List UInt8) (cacheEnabled : Bool) (c : Compression) (eff : Eff)
    (h : b.compressedSize = 0) :
    readDataBlock decomp ro start b buf cacheEnabled c eff = (.ok buf, eff) := by
  simp [readDataBlock, h]

theorem c3_zero_block_witness :
    BlockSize.compressedSize ⟨0⟩ = 0 ∧
      readDataBlock dEx 0 99 ⟨0⟩ [0, 0] true .zstd eff0 = (.ok [0, 0], eff0) :=
  ⟨by decide, c3_zero_block dEx 0 99 ⟨0⟩ [0, 0] true .zstd eff0 (by decide)⟩

/-- C10: an inode that is not a key of the `files` map makes `read_file` return
`FileNotFound(None)` for every offset, size, flag set and compression algorithm,
with the effect state unchanged (no read is performed, no cache is touched). -/
theorem c10_file_not_found (m : SquashModel) (decomp : Decomp)
    (inode offset sizeReq flags : Nat) (c : Compression) (eff : Eff)
    (h : m.files.lookup inode = none) :
    readFile m decomp inode offset sizeReq flags c eff =
      (.error (.fileNotFound none), eff) := by
  simp [readFile, h]

theorem c10_file_not_found_witness :
    readFile mEx dEx 5 3 11 0 .zstd eff0 = (.error (.fileNotFound none), eff0) :=
  c10_file_not_found mEx dEx 5 3 11 0 .zstd eff0 (by decide)

/-- C7: the block arithmetic of `read_file_impl` is NOT exact integer floor/ceiling
division for all representable inputs.  The source computes
`first_block = (offset as f64 / block_size as f64).floor() as usize` and
`n_blocks = ((block_offset + size) as f64 / block_size as f64).ceil() as usize`
(modelled bit-exactly by `floatFloorDiv` / `floatCeilDiv`): at
`offset = 2 ^ 54 + 4095` with `block_size = 4096` the f64 rounding of the offset
makes the computed first block one larger than `⌊offset / block_size⌋`, and at
`block_offset + size = 2 ^ 54 + 4097` the computed block count is one smaller than
`⌈(block_offset + size) / block_size⌉`. -/
theorem c7_block_math_divergence :
    floatFloorDiv (2 ^ 54 + 4095) 4096 = 2 ^ 42 + 1 ∧
      (2 ^ 54 + 4095) / 4096 = 2 ^ 42 ∧
      floatFloorDiv (2 ^ 54 + 4095) 4096 ≠ (2 ^ 54 + 4095) / 4096 ∧
      floatCeilDiv (2 ^ 54 + 4097) 4096 = 2 ^ 42 + 1 ∧
      (2 ^ 54 + 4097 + 4095) / 4096 = 2 ^ 42 + 2 ∧
      floatCeilDiv (2 ^ 54 + 4097) 4096 ≠ (2 ^ 54 + 4097 + 4095) / 4096 := by
  refine ⟨by decide, by decide, by decide, by decide, by decide, by decide⟩

theorem readDataBlock_cache_insert (decomp : Decomp) (ro start : Nat) (b : BlockSize)
    (buf : List UInt8) (ce : Bool) (c : Compression) (eff : Eff) (k : Nat)
    (v : List UInt8)
    (hmem : (k, v) ∈ ((readDataBlock decomp ro start b buf ce c eff).2).cache) :
    (k, v) ∈ eff.cache ∨ v.length = buf.length := by
  simp only [readDataBlock] at hmem
  split at hmem
  · exact Or.inl hmem
  · split at hmem
    · split at hmem
      · exact Or.inl hmem
      · exact Or.inl hmem
    · split at hmem
      · exact Or.inl hmem
      · rename_i out hdec
        split at hmem
        · exact Or.inl hmem
        · rename_i hout
          split at hmem
          · rename_i hce
            split at hmem
            · exact Or.inl hmem
            · rcases List.mem_cons.mp hmem with heq | hin
              · right
                have hv : v = out ++ buf.drop out.length := congrArg Prod.snd heq
                rw [hv]
                simp only [List.length_append, List.length_drop]
                omega
              · exact Or.inl hin
          · exact Or.inl hmem

theorem readBlocksLoop_cache_insert (decomp : Decomp) (ce : Bool) (c : Compression)
    (ro bs : Nat) :
    ∀ (pairs : List (DataLocation × List UInt8)) (eff : Eff) (k : Nat)
      (v : List UInt8),
      (∀ p ∈ pairs, (p.2 : List UInt8).length = bs) →
      (k, v) ∈ ((readBlocksLoop decomp ce c ro pairs eff).2).cache →
      (k, v) ∈ eff.cache ∨ v.length = bs := by
  intro pairs
  induction pairs with
  | nil => exact fun eff k v _ h => Or.inl h
  | cons p rest ih =>
    intro eff k v hparts h
    obtain ⟨l, part⟩ := p
    have hpart : part.length = bs := hparts (l, part) (by simp)
    unfold readBlocksLoop at h
    split at h
    · rename_i e eff1 hrdb
      rcases readDataBlock_cache_insert decomp ro l.block_start l.block_size part ce
          c eff k v (by rw [hrdb]; exact h) with hl | hr
      · exact Or.inl hl
      · exact Or.inr (hr.trans hpart)
    · rename_i newPart eff1 hrdb
      have hstep : ∀ k2 v2, (k2, v2) ∈ eff1.cache →
          (k2, v2) ∈ eff.cache ∨ v2.length = bs := by
        intro k2 v2 hh
        rcases readDataBlock_cache_insert decomp ro l.block_start l.block_size part
            ce c eff k2 v2 (by rw [hrdb]; exact hh) with hl | hr
        · exact Or.inl hl
        · exact Or.inr (hr.trans hpart)
      have hrest : ∀ p2 ∈ rest, (p2.2 : List UInt8).length = bs := fun p2 hp =>
        hparts p2 (List.mem_cons_of_mem _ hp)
      split at h
      · rename_i e eff3 hloop
        rcases ih eff1 k v hrest (by rw [hloop]; exact h) with hl | hr
        · exact hstep k v hl
        · exact Or.inr hr
      · rename_i parts2 eff3 hloop
        rcases ih eff1 k v hrest (by rw [hloop]; exact h) with hl | hr
        · exact hstep k v hl
        · exact Or.inr hr

theorem readFileImpl_cache_insert (m : SquashModel) (decomp : Decomp)
    (file : FileInode) (ro offset size : Nat) (c : Compression) (eff : Eff)
    (k : Nat) (v : List UInt8)
    (hmem : (k, v) ∈ ((readFileImpl m decomp file ro offset size c eff).2).cache) :
    (k, v) ∈ eff.cache ∨ v.length = m.block_size := by
  have hz : ∀ p ∈ ((((file.dataLocations).drop (floatFloorDiv offset m.block_size)).take
        (floatCeilDiv (offset % m.block_size + size) m.block_size)).zip
      (List.replicate (floatCeilDiv (offset % m.block_size + size) m.block_size)
        (List.replicate m.block_size 0))),
      (p.2 : List UInt8).length = m.block_size := by
    intro p hp
    have hp2 := (List.of_mem_zip hp).2
    rw [List.eq_of_mem_replicate hp2]
    simp
  simp only [readFileImpl] at hmem
  split at hmem
  · rename_i e eff1 hloop
    exact readBlocksLoop_cache_insert decomp m.cacheEnabled c ro m.block_size _ eff
      k v hz (by rw [hloop]; exact hmem)
  · rename_i readParts eff1 hloop
    have hstep : ∀ k2 v2, (k2, v2) ∈ eff1.cache →
        (k2, v2) ∈ eff.cache ∨ v2.length = m.block_size := fun k2 v2 hh =>
      readBlocksLoop_cache_insert decomp m.cacheEnabled c ro m.block_size _ eff
        k2 v2 hz (by rw [hloop]; exact hh)
    split at hmem
    · exact hstep k v hmem
    · split at hmem
      · exact hstep k v hmem
      · split at hmem
        · exact hstep k v hmem
        · rename_i entry hent
          split at hmem
          · rename_i e eff3 hrdb
            rcases readDataBlock_cache_insert decomp ro entry.start entry.size
                (List.replicate m.block_size 0) m.cacheEnabled c eff1 k v
                (by rw [hrdb]; exact hmem) with hl | hr
            · exact hstep k v hl
            · right
              rw [hr]
              simp
          · rename_i fragPart eff3 hrdb
            split at hmem
            · rcases readDataBlock_cache_insert decomp ro entry.start entry.size
                  (List.replicate m.block_size 0) m.cacheEnabled c eff1 k v
                  (by rw [hrdb]; exact hmem) with hl | hr
              · exact hstep k v hl
              · right
                rw [hr]
                simp
            · rcases readDataBlock_cache_insert decomp ro entry.start entry.size
                  (List.replicate m.block_size 0) m.cacheEnabled c eff1 k v
                  (by rw [hrdb]; exact hmem) with hl | hr
              · exact hstep k v hl
              · right
                rw [hr]
                simp

/-- C9: every buffer the read path stores in the decoded-block cache has length
exactly `block_size` (every entry of the cache after a `read_file` call is either a
pre-existing entry or has length `block_size`), and on a cache hit whose stored
buffer length differs from the destination buffer, `read_data_block` fails with
`InvalidBufferSize` instead of copying (leaving the state untouched). -/
theorem c9_cache_entry_size (m : SquashModel) (decomp : Decomp)
    (inode offset sizeReq flags : Nat) (c : Compression) (eff : Eff) :
    (∀ (k : Nat) (v : List UInt8),
      (k, v) ∈ ((readFile m decomp inode offset sizeReq flags c eff).2).cache →
        (k, v) ∈ eff.cache ∨ v.length = m.block_size) ∧
      (∀ (decomp2 : Decomp) (ro start : Nat) (b : BlockSize) (buf : List UInt8)
        (c2 : Compression) (block : List UInt8),
        eff.cache.lookup start = some block → block.length ≠ buf.length →
          b.compressedSize ≠ 0 →
          readDataBlock decomp2 ro start b buf true c2 eff =
            (.error .invalidBufferSize, eff)) := by
  constructor
  · intro k v hmem
    simp only [readFile] at hmem
    split at hmem
    · exact Or.inl hmem
    · rename_i file hf
      split at hmem
      · exact Or.inl hmem
      · split at hmem
        · exact Or.inl hmem
        · split at hmem
          · split at hmem
            · rename_i e eff3 himp
              exact readFileImpl_cache_insert m decomp file 0 offset
                (min sizeReq (file.file_size - offset)) c
                { eff with readerFlags := eff.readerFlags ++ [flags ||| O_DIRECT] }
                k v (by rw [himp]; exact hmem)
            · rename_i res eff3 himp
              exact readFileImpl_cache_insert m decomp file 0 offset
                (min sizeReq (file.file_size - offset)) c
                { eff with readerFlags := eff.readerFlags ++ [flags ||| O_DIRECT] }
                k v (by rw [himp]; exact hmem)
          · split at hmem
            · split at hmem
              · exact Or.inl hmem
              · rename_i first tl hdl
                split at hmem
                · rename_i cached hc
                  split at hmem
                  · exact Or.inl hmem
                  · exact Or.inl hmem
                · split at hmem
                  · rename_i e eff3 himp
                    exact readFileImpl_cache_insert m decomp file first.block_start
                      0 file.file_size c
                      { eff with
                        readerFlags := eff.readerFlags ++ [flags ||| O_DIRECT],
                        reads := eff.reads ++ [first.block_start] }
                      k v (by rw [himp]; exact hmem)
                  · rename_i contents eff3 himp
                    split at hmem
                    · exact readFileImpl_cache_insert m decomp file
                        first.block_start 0 file.file_size c
                        { eff with
                          readerFlags := eff.readerFlags ++ [flags ||| O_DIRECT],
                          reads := eff.reads ++ [first.block_start] }
                        k v (by rw [himp]; exact hmem)
                    · exact readFileImpl_cache_insert m decomp file
                        first.block_start 0 file.file_size c
                        { eff with
                          readerFlags := eff.readerFlags ++ [flags ||| O_DIRECT],
                          reads := eff.reads ++ [first.block_start] }
                        k v (by rw [himp]; exact hmem)
            · split at hmem
              · rename_i e eff3 himp
                exact readFileImpl_cache_insert m decomp file 0 offset
                  (min sizeReq (file.file_size - offset)) c
                  { eff with readerFlags := eff.readerFlags ++ [flags] }
                  k v (by rw [himp]; exact hmem)
              · rename_i res eff3 himp
                exact readFileImpl_cache_insert m decomp file 0 offset
                  (min sizeReq (file.file_size - offset)) c
                  { eff with readerFlags := eff.readerFlags ++ [flags] }
                  k v (by rw [himp]; exact hmem)
  · intro decomp2 ro start b buf c2 block hlook hne hb
    simp only [readDataBlock, hb, if_false, hlook]
    simp [hne]

theorem c9_cache_entry_size_witness :
    ((4, [1, 2, 3, 4]) ∈ eff0.cache ∨
        ([1, 2, 3, 4] : List UInt8).length = mEx.block_size) ∧
      readDataBlock dEx 0 100 bsU [0, 0, 0, 0] true .zstd effHit =
        (.error .invalidBufferSize, effHit) :=
  ⟨(c9_cache_entry_size mEx dEx 7 1 10 0 .zstd eff0).1 4 [1, 2, 3, 4] (by decide),
    (c9_cache_entry_size mEx dEx 7 1 10 0 .zstd effHit).2 dEx 0 100 bsU
      [0, 0, 0, 0] .zstd [5, 5] (by decide) (by decide) (by decide)⟩

/-- C5 (amended): when the compressor-options flag is set, loading the superblock
consumes exactly one trailing metadata block and validates the on-disk
size field (`MetadataBlock::compressed_size`, the low 15 bits of the metadata
header) against the algorithm — 4 for Zstd, 8 for Gzip, 8 for Xz — failing with
`InvalidBufferSize` on any other value and with `UnsupportedCompression` for any
other algorithm; when the flag is clear nothing is consumed. -/
theorem c5_compressor_options :
    (∀ block : MetadataBlockM,
      ((CompressionOptions.fromMetadata .zstd block).isOk = true ↔
          block.compressed_size = 4) ∧
        ((CompressionOptions.fromMetadata .gzip block).isOk = true ↔
          block.compressed_size = 8) ∧
        ((CompressionOptions.fromMetadata .xz block).isOk = true ↔
          block.compressed_size = 8) ∧
        (block.compressed_size ≠ 4 →
          CompressionOptions.fromMetadata .zstd block = .error .invalidBufferSize) ∧
        (block.compressed_size ≠ 8 →
          CompressionOptions.fromMetadata .gzip block = .error .invalidBufferSize) ∧
        (block.compressed_size ≠ 8 →
          CompressionOptions.fromMetadata .xz block = .error .invalidBufferSize) ∧
        (∀ c : Compression, c ≠ .zstd → c ≠ .gzip → c ≠ .xz →
          CompressionOptions.fromMetadata c block =
            .error (.unsupportedCompression c))) ∧
      (∀ (mdDecomp : MdDecomp) (sb : SuperBlockM) (bytes : List UInt8),
        sb.flags &&& COMPRESSOR_OPTIONS = 0 →
          superBlockReadOptions mdDecomp sb bytes = .ok (sb, bytes)) ∧
      (∀ (mdDecomp : MdDecomp) (sb : SuperBlockM) (b0 b1 : UInt8)
          (tl : List UInt8) (sb2 : SuperBlockM) (rest : List UInt8),
        sb.flags &&& COMPRESSOR_OPTIONS ≠ 0 →
          superBlockReadOptions mdDecomp sb (b0 :: b1 :: tl) = .ok (sb2, rest) →
          rest = tl.drop (leU16 b0 b1 &&& 0x7FFF) ∧
            sb2.compression_options.isSome = true) := by
  refine ⟨fun block => ⟨?_, ?_, ?_, ?_, ?_, ?_, ?_⟩, ?_, ?_⟩
  · simp only [CompressionOptions.fromMetadata]
    split <;> simp_all [Except.isOk, Except.toBool]
  · simp only [CompressionOptions.fromMetadata]
    split <;> simp_all [Except.isOk, Except.toBool]
  · simp only [CompressionOptions.fromMetadata]
    split <;> simp_all [Except.isOk, Except.toBool]
  · intro h
    simp [CompressionOptions.fromMetadata, h]
  · intro h
    simp [CompressionOptions.fromMetadata, h]
  · intro h
    simp [CompressionOptions.fromMetadata, h]
  · intro c h1 h2 h3
    cases c <;> simp_all [CompressionOptions.fromMetadata]
  · intro mdDecomp sb bytes h
    simp [superBlockReadOptions, h]
  · intro mdDecomp sb b0 b1 tl sb2 rest hflag h
    rw [superBlockReadOptions, if_pos hflag] at h
    split at h
    · exact absurd h (by simp)
    · rename_i block rest3 hmb
      split at h
      · exact absurd h (by simp)
      · rename_i opts hfm
        simp only [Except.ok.injEq, Prod.mk.injEq] at h
        obtain ⟨hsb2, hrest⟩ := h
        simp only [metadataBlockFromReader] at hmb
        split at hmb
        · exact absurd hmb (by simp)
        · split at hmb
          · exact absurd hmb (by simp)
          · simp only [Except.ok.injEq, Prod.mk.injEq] at hmb
            refine ⟨?_, ?_⟩
            · rw [← hrest, ← hmb.2]
            · rw [← hsb2]
              simp

theorem c5_compressor_options_witness :
    (CompressionOptions.fromMetadata .zstd ⟨4, [9, 9, 9, 9]⟩).isOk = true ∧
      CompressionOptions.fromMetadata .gzip ⟨7, []⟩ = .error .invalidBufferSize ∧
      CompressionOptions.fromMetadata .lz4 ⟨4, []⟩ =
        .error (.unsupportedCompression .lz4) ∧
      superBlockReadOptions mdDex sbPlain optionsBlockBytes =
        .ok (sbPlain, optionsBlockBytes) ∧
      ([] : List UInt8) = List.drop (leU16 0x04 0x80 &&& 0x7FFF) [9, 9, 9, 9] := by
  refine ⟨(c5_compressor_options.1 ⟨4, [9, 9, 9, 9]⟩).1.mpr (by decide),
    (c5_compressor_options.1 ⟨7, []⟩).2.2.2.2.1 (by decide),
    (c5_compressor_options.1 ⟨4, []⟩).2.2.2.2.2.2 .lz4 (by decide) (by decide)
      (by decide),
    c5_compressor_options.2.1 mdDex sbPlain optionsBlockBytes (by decide),
    ((c5_compressor_options.2.2 mdDex sbFlagged 0x04 0x80 [9, 9, 9, 9]
      ⟨.zstd, 0x0400, some .zstd⟩ [] (by decide) (by rfl)).1)⟩

/-- C5 counterexample: the claim says the check is on the DECOMPRESSED size of the block,
but `CompressionOptions::from_metadata` checks the on-disk `compressed_size` field:
a Zstd options block whose header size field is 4 but whose decompressed payload has
7 bytes is accepted, where the claim as stated requires a failure. -/
theorem c5_counterexample :
    CompressionOptions.fromMetadata .zstd ⟨4, List.replicate 7 0⟩ = .ok .zstd ∧
      (MetadataBlockM.data ⟨4, List.replicate 7 0⟩).length ≠ 4 := by
  exact ⟨by rfl, by decide⟩

/-- C8 (amended): for every parsed directory entry with declared length field
`name_size = n`, the on-disk name field occupies `n + 1` bytes, and the
user-visible name consists of ALL `n + 1` bytes of that field (not just the first
`n`): the name equals the `n + 1` bytes following the 8 fixed bytes, and parsing
continues right after them. -/
theorem c8_name_field (bytes : List UInt8) (entry : EntryInternal)
    (rest : List UInt8) (h : entryInternalFromReader bytes = .ok (entry, rest)) :
    entry.name.length = entry.name_size + 1 ∧
      entry.name = (bytes.drop 8).take (entry.name_size + 1) ∧
      rest = (bytes.drop 8).drop (entry.name_size + 1) := by
  unfold entryInternalFromReader at h
  split at h
  · rename_i b0 b1 b2 b3 b4 b5 b6 b7 tail
    split at h
    · exact absurd h (by simp)
    · rename_i ty hty
      simp only [bincodeDeserStringFrom] at h
      split at h
      · exact absurd h (by simp)
      · rename_i nm rest2 hlen
        simp only [Except.ok.injEq, Prod.mk.injEq] at h
        obtain ⟨he, hr⟩ := h
        split at hlen
        · exact absurd hlen (by simp)
        · rename_i hlong
          split at hlen
          · simp only [Except.ok.injEq, Prod.mk.injEq] at hlen
            obtain ⟨hn, hr2⟩ := hlen
            subst he
            subst hr
            push_neg at hlong
            refine ⟨?_, ?_, ?_⟩
            · show nm.length = leU16 b6 b7 + 1
              rw [← hn]
              simp only [List.length_take] at hlong ⊢
              omega
            · show nm = List.take (leU16 b6 b7 + 1) tail
              exact hn.symm
            · show rest2 = List.drop (leU16 b6 b7 + 1) tail
              exact hr2.symm
          · exact absurd hlen (by simp)
  · exact absurd h (by simp)

theorem c8_name_field_witness :
    entryInternalFromReader c8bytes = .ok (⟨0, 0, .basicFile, 1, [97, 98]⟩, []) ∧
      ([97, 98] : List UInt8).length = 1 + 1 :=
  ⟨by rfl,
    (c8_name_field c8bytes ⟨0, 0, .basicFile, 1, [97, 98]⟩ [] (by rfl)).1⟩

/-- C8 counterexample: on input bytes with `name_size = 1` and name field `ab`,
the parser keeps both bytes as the name, while the claim (following the
one-byte-terminator description) says the user-visible name is only the first
`name_size = 1` byte. -/
theorem c8_counterexample :
    c8parsedName = [97, 98] ∧ specVisibleName c8bytes = [97] ∧
      c8parsedName ≠ specVisibleName c8bytes := by
  exact ⟨by rfl, by rfl, by decide⟩

/-- C2 counterexample: two concurrent `read_file` calls with identical arguments can
each invoke the decompressor for the same data block.  Under the interleaving in
which both tasks look up the (empty) cache before either decompresses — every step
boundary is an await point of the source — both tasks complete and the decompressor
runs twice for the same block-start key, contradicting the claimed at-most-one
invocation. -/
theorem c2_counterexample :
    (runSchedule 0 [1] [false, true, false, true, false, true] concInit).decompTotal
        = 2 ∧
      (runSchedule 0 [1] [false, true, false, true, false, true] concInit).t0.pc
        = .finished ∧
      (runSchedule 0 [1] [false, true, false, true, false, true] concInit).t1.pc
        = .finished := by
  exact ⟨by rfl, by rfl, by rfl⟩

theorem taskStep_inv (k : Nat) (v : List UInt8) (cache : List (Nat × List UInt8))
    (t : TaskState) (h : t.inv) : ((taskStep k v cache t).2).inv := by
  unfold TaskState.inv at h ⊢
  unfold taskStep
  obtain ⟨h1, h2⟩ := h
  cases hpc : t.pc <;> simp only [hpc]
  · split
    · exact ⟨fun hx => by simp at hx, h2⟩
    · exact ⟨fun _ => h1 (Or.inl hpc), h2⟩
  · have hz : t.decompCount = 0 := h1 (Or.inr hpc)
    exact ⟨fun hx => by simp at hx, by omega⟩
  · exact ⟨fun hx => by simp at hx, h2⟩
  · exact ⟨fun hx => h1 (hpc ▸ hx), h2⟩

theorem runSchedule_inv (k : Nat) (v : List UInt8) (s : List Bool) :
    ∀ st : ConcState, st.t0.inv → st.t1.inv →
      ((runSchedule k v s st).t0.inv ∧ (runSchedule k v s st).t1.inv) := by
  induction s with
  | nil => exact fun st h0 h1 => ⟨h0, h1⟩
  | cons b rest ih =>
    intro st h0 h1
    cases b
    · exact ih _ (taskStep_inv k v st.cache st.t0 h0) h1
    · exact ih _ h0 (taskStep_inv k v st.cache st.t1 h1)

/-- C2 (amended): the decompressor runs at most once per concurrent reader — at most
twice in total for two concurrent identical reads of one block, not at most once —
and when the two reads do not overlap (the first completes before the second
starts), the second hits the cache and only one decompression happens in total.
The cache insert itself remains a single-flight get-or-insert. -/
theorem c2_decompress_bounds :
    (∀ (k : Nat) (v : List UInt8) (s : List Bool),
      (runSchedule k v s concInit).decompTotal ≤ 2) ∧
      (∀ (k : Nat) (v : List UInt8),
        (runSchedule k v [false, false, false, true] concInit).decompTotal = 1) := by
  constructor
  · intro k v s
    have h := runSchedule_inv k v s concInit (by simp [TaskState.inv, concInit])
      (by simp [TaskState.inv, concInit])
    have h0 := h.1.2
    have h1 := h.2.2
    unfold ConcState.decompTotal
    omega
  · intro k v
    simp [runSchedule, taskStep, concInit, ConcState.decompTotal, List.lookup]

theorem assembleTail_ok_length (bo sz : Nat) (parts : List (List UInt8))
    (out : List UInt8) (h : assembleTail bo sz parts = .ok out) : out.length = sz := by
  simp only [assembleTail] at h
  split at h
  · exact absurd h (by simp)
  · split at h
    · exact absurd h (by simp)
    · rename_i hne
      simp only [Except.ok.injEq] at h
      subst h
      push_neg at hne
      exact hne

theorem readFileImpl_ok_length (m : SquashModel) (decomp : Decomp) (file : FileInode)
    (ro offset size : Nat) (c : Compression) (eff : Eff) (out : List UInt8)
    (eff2 : Eff) (h : readFileImpl m decomp file ro offset size c eff = (.ok out, eff2)) :
    out.length = size := by
  simp only [readFileImpl] at h
  split at h
  · simp at h
  · split at h
    · simp only [Prod.mk.injEq] at h
      exact assembleTail_ok_length _ _ _ _ h.1
    · split at h
      · simp at h
      · split at h
        · simp at h
        · split at h
          · simp at h
          · split at h
            · simp at h
            · simp only [Prod.mk.injEq] at h
              exact assembleTail_ok_length _ _ _ _ h.1

theorem readDataBlock_frame (decomp : Decomp) (ro start : Nat) (b : BlockSize)
    (buf : List UInt8) (ce : Bool) (c : Compression) (eff : Eff) :
    ((readDataBlock decomp ro start b buf ce c eff).2).readerFlags = eff.readerFlags ∧
      ((readDataBlock decomp ro start b buf ce c eff).2).smallCache = eff.smallCache := by
  unfold readDataBlock
  split
  · exact ⟨rfl, rfl⟩
  · split
    · split
      · exact ⟨rfl, rfl⟩
      · exact ⟨rfl, rfl⟩
    · split
      · exact ⟨rfl, rfl⟩
      · split
        · exact ⟨rfl, rfl⟩
        · split <;> exact ⟨rfl, rfl⟩

theorem readBlocksLoop_frame (decomp : Decomp) (ce : Bool) (c : Compression)
    (ro : Nat) (pairs : List (DataLocation × List UInt8)) : ∀ eff : Eff,
    ((readBlocksLoop decomp ce c ro pairs eff).2).readerFlags = eff.readerFlags ∧
      ((readBlocksLoop decomp ce c ro pairs eff).2).smallCache = eff.smallCache := by
  induction pairs with
  | nil => exact fun eff => ⟨rfl, rfl⟩
  | cons p rest ih =>
    intro eff
    obtain ⟨l, part⟩ := p
    have hrdbf := readDataBlock_frame decomp ro l.block_start l.block_size part ce c eff
    unfold readBlocksLoop
    split
    · rename_i e eff1 hrdb
      rw [hrdb] at hrdbf
      exact hrdbf
    · rename_i newPart eff1 hrdb
      rw [hrdb] at hrdbf
      have hloopf := ih eff1
      split
      · rename_i e eff3 hloop
        rw [hloop] at hloopf
        exact ⟨hloopf.1.trans hrdbf.1, hloopf.2.trans hrdbf.2⟩
      · rename_i parts2 eff3 hloop
        rw [hloop] at hloopf
        exact ⟨hloopf.1.trans hrdbf.1, hloopf.2.trans hrdbf.2⟩

theorem readFileImpl_frame (m : SquashModel) (decomp : Decomp) (file : FileInode)
    (ro offset size : Nat) (c : Compression) (eff : Eff) :
    ((readFileImpl m decomp file ro offset size c eff).2).readerFlags
        = eff.readerFlags ∧
      ((readFileImpl m decomp file ro offset size c eff).2).smallCache
        = eff.smallCache := by
  simp only [readFileImpl]
  have hloopf := readBlocksLoop_frame decomp m.cacheEnabled c ro
    ((((file.dataLocations).drop (floatFloorDiv offset m.block_size)).take
        (floatCeilDiv (offset % m.block_size + size) m.block_size)).zip
      (List.replicate (floatCeilDiv (offset % m.block_size + size) m.block_size)
        (List.replicate m.block_size 0))) eff
  split
  · rename_i e eff1 hloop
    rw [hloop] at hloopf
    exact hloopf
  · rename_i readParts eff1 hloop
    rw [hloop] at hloopf
    split
    · exact hloopf
    · split
      · exact hloopf
      · split
        · exact hloopf
        · rename_i entry hent
          have hrdbf := readDataBlock_frame decomp ro entry.start entry.size
            (List.replicate m.block_size 0) m.cacheEnabled c eff1
          split
          · rename_i e eff3 hrdb
            rw [hrdb] at hrdbf
            exact ⟨hrdbf.1.trans hloopf.1, hrdbf.2.trans hloopf.2⟩
          · rename_i fragPart eff3 hrdb
            rw [hrdb] at hrdbf
            split
            · exact ⟨hrdbf.1.trans hloopf.1, hrdbf.2.trans hloopf.2⟩
            · exact ⟨hrdbf.1.trans hloopf.1, hrdbf.2.trans hloopf.2⟩

/-- C1: for every `read_file(inode, offset, size, flags, algo)` call that resolves a
file inode, `offset > file_size` yields the `InvalidOffset` error, and every
successful call returns exactly `min(size, file_size - offset)` bytes — in
particular the empty buffer when `offset == file_size` or when the clamped size is
zero. -/
theorem c1_read_file_size (m : SquashModel) (decomp : Decomp)
    (inode offset sizeReq flags : Nat) (c : Compression) (eff : Eff)
    (file : FileInode) (hf : m.files.lookup inode = some file) :
    (file.file_size < offset →
      (readFile m decomp inode offset sizeReq flags c eff).1
        = .error .invalidOffset) ∧
      (∀ (out : ReadOk) (eff2 : Eff),
        readFile m decomp inode offset sizeReq flags c eff = (.ok out, eff2) →
          out.data.length = min sizeReq (file.file_size - offset)) := by
  constructor
  · intro hlt
    simp [readFile, hf, hlt]
  · intro out eff2 h
    simp only [readFile, hf] at h
    split at h
    · simp at h
    · rename_i hge
      split at h
      · rename_i hsz
        simp only [Prod.mk.injEq, Except.ok.injEq] at h
        rw [← h.1]
        simp [hsz]
      · rename_i hsz
        split at h
        · split at h
          · simp at h
          · rename_i res eff3 himp
            simp only [Prod.mk.injEq, Except.ok.injEq] at h
            rw [← h.1]
            exact readFileImpl_ok_length _ _ _ _ _ _ _ _ _ _ himp
        · split at h
          · split at h
            · simp at h
            · rename_i first tl
              split at h
              · rename_i cached hc
                split at h
                · simp at h
                · rename_i hlen
                  simp only [Prod.mk.injEq, Except.ok.injEq] at h
                  rw [← h.1]
                  push_neg at hlen
                  simp only [List.length_take, List.length_drop]
                  omega
              · split at h
                · simp at h
                · rename_i contents eff3 himp
                  split at h
                  · simp at h
                  · rename_i hlen
                    simp only [Prod.mk.injEq, Except.ok.injEq] at h
                    rw [← h.1]
                    push_neg at hlen
                    simp only [List.length_take, List.length_drop]
                    omega
          · split at h
            · simp at h
            · rename_i res eff3 himp
              simp only [Prod.mk.injEq, Except.ok.injEq] at h
              rw [← h.1]
              exact readFileImpl_ok_length _ _ _ _ _ _ _ _ _ _ himp

theorem c1_read_file_size_witness :
    mEx.files.lookup 7 = some file8 ∧
      readFile mEx dEx 7 1 10 0 .zstd eff0 =
        (.ok ⟨[2, 3, 4, 1, 2, 3, 4], .regular⟩,
          ⟨[(4, [1, 2, 3, 4]), (0, [1, 2, 3, 4])], [], [0, 4], [0]⟩) ∧
      ([2, 3, 4, 1, 2, 3, 4] : List UInt8).length = min 10 (file8.file_size - 1) :=
  ⟨rfl, rfl,
    (c1_read_file_size mEx dEx 7 1 10 0 .zstd eff0 file8 rfl).2
      ⟨[2, 3, 4, 1, 2, 3, 4], .regular⟩
      ⟨[(4, [1, 2, 3, 4]), (0, [1, 2, 3, 4])], [], [0, 4], [0]⟩ rfl⟩

theorem mem_enumFrom_get? {α : Type} :
    ∀ (es : List α) (n : Nat) (p : Nat × α), p ∈ es.enumFrom n →
      n ≤ p.1 ∧ es.get? (p.1 - n) = some p.2 := by
  intro es
  induction es with
  | nil => intro n p hp; simp [List.enumFrom] at hp
  | cons a rest ih =>
    intro n p hp
    rcases List.mem_cons.mp hp with heq | hmem
    · subst heq
      simp
    · obtain ⟨hle, hget⟩ := ih (n + 1) p hmem
      refine ⟨by omega, ?_⟩
      have hstep : p.1 - n = (p.1 - (n + 1)) + 1 := by omega
      rw [hstep]
      simpa using hget

theorem filterMap_get?_of_mem (es : List DirEntry) :
    ∀ ps : List (Nat × DirEntry), (∀ p ∈ ps, es.get? p.1 = some p.2) →
      (ps.map Prod.fst).filterMap (fun i => es.get? i) = ps.map Prod.snd := by
  intro ps
  induction ps with
  | nil => intro _; rfl
  | cons p rest ih =>
    intro hps
    simp only [List.map_cons, List.filterMap_cons, hps p (by simp)]
    rw [ih (fun q hq => hps q (List.mem_cons_of_mem _ hq))]

theorem enumFrom_filter_snd_map {α : Type} (q : α → Bool) :
    ∀ (es : List α) (n : Nat),
      ((es.enumFrom n).filter (fun p => q p.2)).map Prod.snd = es.filter q := by
  intro es
  induction es with
  | nil => intro n; rfl
  | cons a rest ih =>
    intro n
    simp only [List.enumFrom, List.filter_cons]
    cases hq : q a <;> simp [hq, ih (n + 1)]

theorem filter_find?_of_imp {α : Type} (p q : α → Bool)
    (himp : ∀ x, p x = true → q x = true) :
    ∀ l : List α, (l.filter q).find? p = l.find? p := by
  intro l
  induction l with
  | nil => rfl
  | cons a rest ih =>
    cases hq : q a
    · have hp : p a = false := by
        cases hpa : p a
        · rfl
        · exact absurd (himp a hpa) (by simp [hq])
      simp [List.filter_cons, hq, List.find?_cons, hp, ih]
    · cases hpa : p a <;> simp [List.filter_cons, hq, List.find?_cons, hpa, ih]

/-- The behavior of `DirectoryTable::find` over the index built by `from_reader`:
hashing, candidate lookup and exact comparison select exactly the first entry of
the table whose name equals the query, for every hash function. -/
theorem find_eq_entries_find? (hash : List UInt8 → Nat) (entries : List DirEntry)
    (name : List UInt8) :
    DirectoryTable.find hash ⟨entries, buildIndex hash entries⟩ name =
      entries.find? (fun e => e.name == name) := by
  unfold DirectoryTable.find buildIndex
  rw [filterMap_get?_of_mem entries _ (fun p hp => ?_)]
  · have h1 : (List.filter (fun p => hash p.2.name == hash name) (entries.enum)).map
        Prod.snd = entries.filter (fun e => hash e.name == hash name) :=
      enumFrom_filter_snd_map (fun e => hash e.name == hash name) entries 0
    rw [h1]
    exact filter_find?_of_imp _ _ (fun x hx => by
      rw [beq_iff_eq] at hx ⊢
      rw [hx]) entries
  · have hp2 := mem_enumFrom_get? entries 0 p (List.mem_of_mem_filter hp)
    simpa using hp2.2

theorem find?_name_of_distinct (e : DirEntry) :
    ∀ entries : List DirEntry, e ∈ entries →
      entries.Pairwise (fun a b => a.name ≠ b.name) →
      entries.find? (fun x => x.name == e.name) = some e := by
  intro entries
  induction entries with
  | nil => intro h; cases h
  | cons a rest ih =>
    intro he hdist
    rcases List.mem_cons.mp he with heq | hmem
    · subst heq
      simp [List.find?_cons]
    · have hne : a.name ≠ e.name :=
        (List.pairwise_cons.mp hdist).1 e hmem
      have hpa : (a.name == e.name) = false := beq_eq_false_iff_ne.mpr hne
      simp only [List.find?_cons, hpa]
      exact ih hmem (List.pairwise_cons.mp hdist).2

/-- C6 (amended): for every directory table built by `from_reader` (entries plus the
`hash(name) → all candidate indices` side index, for any hash function), looking up
`e.name` for an entry `e` of the table succeeds, returning the FIRST entry whose
name equals `e.name`; when the entry names of the table are pairwise distinct — true of
every well-formed directory — the returned entry is `e` itself, with inode
`e.inode`. -/
theorem c6_directory_lookup (hash : List UInt8 → Nat) (entries : List DirEntry)
    (e : DirEntry) (he : e ∈ entries) :
    (DirectoryTable.find hash ⟨entries, buildIndex hash entries⟩ e.name).isSome
        = true ∧
      (entries.Pairwise (fun a b => a.name ≠ b.name) →
        DirectoryTable.find hash ⟨entries, buildIndex hash entries⟩ e.name
          = some e) := by
  constructor
  · rw [find_eq_entries_find?]
    rw [List.find?_isSome]
    exact ⟨e, he, by simp⟩
  · intro hdist
    rw [find_eq_entries_find?]
    exact find?_name_of_distinct e entries he hdist

theorem c6_directory_lookup_witness :
    (⟨0, 2, .basicFile, [98]⟩ : DirEntry) ∈
        ([⟨0, 1, .basicFile, [97]⟩, ⟨0, 2, .basicFile, [98]⟩] : List DirEntry) ∧
      DirectoryTable.find hashSum
        ⟨[⟨0, 1, .basicFile, [97]⟩, ⟨0, 2, .basicFile, [98]⟩],
          buildIndex hashSum [⟨0, 1, .basicFile, [97]⟩, ⟨0, 2, .basicFile, [98]⟩]⟩
        [98] = some ⟨0, 2, .basicFile, [98]⟩ :=
  ⟨by decide,
    (c6_directory_lookup hashSum
      [⟨0, 1, .basicFile, [97]⟩, ⟨0, 2, .basicFile, [98]⟩]
      ⟨0, 2, .basicFile, [98]⟩ (by decide)).2 (by decide)⟩

/-- C6 counterexample: a parseable directory table with two entries of the same
name `a` (inodes 1 and 2): `find` on that name returns the entry with inode 1, so
for the second entry the claimed `find(e.name).inode = e.inode` fails. -/
theorem c6_counterexample :
    (dirTableFromReader hashSum c6bytes).isOk = true ∧
      c6table.entries.get? 1 = some ⟨0, 2, .basicFile, [97]⟩ ∧
      DirectoryTable.find hashSum c6table [97] = some ⟨0, 1, .basicFile, [97]⟩ ∧
      (1 : Nat) ≠ 2 := by
  exact ⟨by rfl, by rfl, by rfl, by decide⟩

/-- C4 (amended): among requests that resolve a file with `offset ≤ file_size` and a
nonzero clamped size, a successful `read_file` is served through the
whole-small-file cache exactly when `file_size ≥ block_size`,
`file_size < direct_limit`, the file has no tail fragment, the flags of the caller
include `O_DIRECT`, and the small-file cache is configured; and whenever
`file_size < block_size` the request instead takes the regular block path with the
`O_DIRECT` flag forced into the reader flags. -/
theorem c4_small_file_routing (m : SquashModel) (decomp : Decomp)
    (inode offset sizeReq flags : Nat) (c : Compression) (eff : Eff)
    (file : FileInode) (hf : m.files.lookup inode = some file)
    (hoff : offset ≤ file.file_size)
    (hpos : 0 < min sizeReq (file.file_size - offset)) :
    (∀ (out : ReadOk) (eff2 : Eff),
      readFile m decomp inode offset sizeReq flags c eff = (.ok out, eff2) →
        (out.route = .smallFile ↔
          (m.block_size ≤ file.file_size ∧ file.file_size < m.direct_limit ∧
            file.fragment.valid = false ∧ flags &&& O_DIRECT ≠ 0 ∧
            m.smallCacheEnabled = true))) ∧
      (file.file_size < m.block_size →
        ∀ (out : ReadOk) (eff2 : Eff),
          readFile m decomp inode offset sizeReq flags c eff = (.ok out, eff2) →
            out.route = .regular ∧
              eff2.readerFlags = eff.readerFlags ++ [flags ||| O_DIRECT]) := by
  constructor
  · intro out eff2 h
    simp only [readFile, hf] at h
    split at h
    · rename_i hlt
      exact absurd hlt (by omega)
    · split at h
      · rename_i hsz
        exact absurd hsz (by omega)
      · rename_i hsz
        split at h
        · rename_i htiny
          have hbs : ¬ m.block_size ≤ file.file_size := by omega
          split at h
          · simp at h
          · rename_i res eff3 himp
            simp only [Prod.mk.injEq, Except.ok.injEq] at h
            rw [← h.1]
            exact iff_of_false (by simp) (fun hx => hbs hx.1)
        · rename_i htiny
          split at h
          · rename_i hC
            split at h
            · simp at h
            · rename_i first tl
              split at h
              · rename_i cached hc
                split at h
                · simp at h
                · simp only [Prod.mk.injEq, Except.ok.injEq] at h
                  rw [← h.1]
                  exact iff_of_true rfl
                    ⟨by omega, hC.1, hC.2.1, hC.2.2.1, hC.2.2.2⟩
              · split at h
                · simp at h
                · rename_i contents eff3 himp
                  split at h
                  · simp at h
                  · simp only [Prod.mk.injEq, Except.ok.injEq] at h
                    rw [← h.1]
                    exact iff_of_true rfl
                      ⟨by omega, hC.1, hC.2.1, hC.2.2.1, hC.2.2.2⟩
          · rename_i hC
            split at h
            · simp at h
            · rename_i res eff3 himp
              simp only [Prod.mk.injEq, Except.ok.injEq] at h
              rw [← h.1]
              exact iff_of_false (by simp)
                (fun hx => hC ⟨hx.2.1, hx.2.2.1, hx.2.2.2.1, hx.2.2.2.2⟩)
  · intro htiny out eff2 h
    simp only [readFile, hf] at h
    split at h
    · rename_i hlt
      exact absurd hlt (by omega)
    · split at h
      · rename_i hsz
        exact absurd hsz (by omega)
      · rename_i hsz
        split at h
        · simp at h
        · rename_i res eff3 himp
          simp only [Prod.mk.injEq, Except.ok.injEq] at h
          have hfr := readFileImpl_frame m decomp file 0 offset
            (min sizeReq (file.file_size - offset)) c
            { eff with readerFlags := eff.readerFlags ++ [flags ||| O_DIRECT] }
          rw [himp] at hfr
          constructor
          · rw [← h.1]
          · rw [← h.2]
            exact hfr.1

theorem c4_small_file_routing_witness :
    mEx.files.lookup 7 = some file8 ∧ (0 : Nat) ≤ file8.file_size ∧
      0 < min 8 (file8.file_size - 0) ∧
      (ReadOk.route ⟨[1, 2, 3, 4, 1, 2, 3, 4], .smallFile⟩ = .smallFile ↔
        (mEx.block_size ≤ file8.file_size ∧ file8.file_size < mEx.direct_limit ∧
          file8.fragment.valid = false ∧ 0x4000 &&& O_DIRECT ≠ 0 ∧
          mEx.smallCacheEnabled = true)) :=
  ⟨rfl, by decide, by decide,
    (c4_small_file_routing mEx dEx 7 0 8 0x4000 .zstd eff0 file8 rfl (by decide)
        (by decide)).1 ⟨[1, 2, 3, 4, 1, 2, 3, 4], .smallFile⟩
      ⟨[(4, [1, 2, 3, 4]), (0, [1, 2, 3, 4])], [(7, [1, 2, 3, 4, 1, 2, 3, 4])],
        [0, 0, 4], [16384]⟩ rfl⟩

/-- C4 counterexample: a request on a file satisfying every condition of the claim
(size at least a block, below the direct limit, no tail fragment, direct flag set,
small-file cache configured) whose clamped size is zero (`offset == file_size`) is
served by the early empty return, not through the whole-small-file cache — so the
claimed "exactly when" biconditional fails as stated. -/
theorem c4_counterexample :
    readFile mEx dEx 7 8 5 0x4000 .zstd eff0 = (.ok ⟨[], .earlyEmpty⟩, eff0) ∧
      (mEx.block_size ≤ file8.file_size ∧ file8.file_size < mEx.direct_limit ∧
        file8.fragment.valid = false ∧ 0x4000 &&& O_DIRECT ≠ 0 ∧
        mEx.smallCacheEnabled = true) ∧
      Route.earlyEmpty ≠ Route.smallFile := by
  exact ⟨by rfl, by decide, by decide⟩

end Squash
